import Mathlib

/-!
Verification of the YouTube transcript service (files main.py and new_app.py).

The core logic is a pure identifier resolver (get_video_id), a pure
transcript formatter (format_transcript), and an HTTP handler
(get_transcript) that maps outcomes of the resolver and of the external
transcript provider to HTTP statuses.

The embedding works on Python strings modelled as List Char.  Helper
definitions model the pieces of the Python standard library the code uses:
re.match on the fixed video-id pattern, str.strip, urllib.parse.urlparse,
urllib.parse.parse_qs, str.split, str.startswith and slicing.  Each helper
carries a comment naming the Python behaviour it models.  Simplifications
relative to CPython (all irrelevant to the inputs reasoned about here):
only ASCII whitespace and ASCII case mapping are modelled, bracketed IPv6
netlocs are not rejected, and percent escapes decode single bytes to the
code point of the byte rather than running UTF-8 decoding.
-/

/-- The characters of a string, written short. -/
def chars (s : String) : List Char := s.data

/-- Membership in the character class of the pattern [a-zA-Z0-9_-]. -/
def isIdChar (c : Char) : Bool :=
  (97 ≤ c.toNat && c.toNat ≤ 122) ||   -- a-z
  (65 ≤ c.toNat && c.toNat ≤ 90) ||    -- A-Z
  (48 ≤ c.toNat && c.toNat ≤ 57) ||    -- 0-9
  c = '_' || c = '-'

/-- Models whether Python re.match matches an entire input against
the anchored pattern of eleven identifier characters.  Following Python
regex semantics the trailing anchor also matches just before a single
final newline, so a twelve character input whose last character is a
newline is accepted as well. -/
def reMatchVideoId (l : List Char) : Bool :=
  (l.length = 11 && l.all isIdChar) ||
  (l.length = 12 && (l.take 11).all isIdChar && l.getLast? = some '\n')

/-- An eleven character token over the identifier alphabet: the shape of
a canonical video identifier. -/
def isValidIdShape (s : String) : Bool :=
  s.data.length = 11 && s.data.all isIdChar

/-- ASCII whitespace, the characters removed by str.strip on the inputs
considered here. -/
def isPySpace (c : Char) : Bool :=
  c = ' ' || c = '\t' || c = '\n' || c = '\r' || c = '\x0b' || c = '\x0c'

/-- Models Python str.strip with no argument: remove leading and trailing
whitespace. -/
def pyStrip (l : List Char) : List Char :=
  ((l.dropWhile isPySpace).reverse.dropWhile isPySpace).reverse

/-- Split a list at the first occurrence of a character: returns the part
before it and, when the character occurs, the part after it.  This is the
shape underlying str.find, str.split with maxsplit one, and str.partition. -/
def splitAtFirst (c : Char) : List Char → List Char × Option (List Char)
  | [] => ([], none)
  | x :: xs =>
    if x = c then ([], some xs)
    else
      let r := splitAtFirst c xs
      (x :: r.1, r.2)

/-- Models Python str.split on a single character separator with no limit:
always returns at least one (possibly empty) field. -/
def pySplitAll (c : Char) : List Char → List (List Char)
  | [] => [[]]
  | x :: xs =>
    if x = c then [] :: pySplitAll c xs
    else
      match pySplitAll c xs with
      | h :: t => (x :: h) :: t
      | [] => [[x]]

/-- The part of a list after the last occurrence of a character, or the
whole list when the character does not occur.  Models str.rpartition
keeping the third component. -/
def afterLast (c : Char) (l : List Char) : List Char :=
  match splitAtFirst c l.reverse with
  | (revAfter, some _) => revAfter.reverse
  | (_, none) => l

/-- Hexadecimal digit value, as used by percent decoding in
urllib.parse.unquote. -/
def hexVal (c : Char) : Option Nat :=
  if 48 ≤ c.toNat && c.toNat ≤ 57 then some (c.toNat - 48)
  else if 97 ≤ c.toNat && c.toNat ≤ 102 then some (c.toNat - 87)
  else if 65 ≤ c.toNat && c.toNat ≤ 70 then some (c.toNat - 55)
  else none

/-- Models urllib.parse.unquote: decode percent escapes, passing invalid
escapes through unchanged.  Multi-byte UTF-8 sequences are not recombined;
the inputs reasoned about contain no percent escapes at all. -/
def pyUnquote : List Char → List Char
  | [] => []
  | '%' :: c1 :: c2 :: rest =>
    match hexVal c1, hexVal c2 with
    | some h1, some h2 => Char.ofNat (h1 * 16 + h2) :: pyUnquote rest
    | _, _ => '%' :: pyUnquote (c1 :: c2 :: rest)
  | '%' :: rest => '%' :: pyUnquote rest
  | c :: rest => c :: pyUnquote rest

/-- Models urllib.parse.unquote_plus: plus signs become spaces, then
percent escapes are decoded. -/
def pyUnquotePlus (l : List Char) : List Char :=
  pyUnquote (l.map fun c => if c = '+' then ' ' else c)

/-- Models urllib.parse.parse_qsl with default arguments: split the query
on ampersands, skip empty fields, skip fields with no equals sign, skip
fields whose value is empty (keep_blank_values defaults to False), and
unquote names and values. -/
def parse_qsl (qs : List Char) : List (List Char × List Char) :=
  (pySplitAll '&' qs).filterMap fun nv =>
    if nv = [] then none
    else
      match splitAtFirst '=' nv with
      | (_, none) => none
      | (name, some value) =>
        if value = [] then none
        else some (pyUnquotePlus name, pyUnquotePlus value)

/-- Models the composite parse_qs(query).get(key, [None])[0] used by the
source: the first value associated to the key, or the None default when
the key has no values. -/
def qsFirstValue (key : List Char) (qs : List Char) : Option (List Char) :=
  ((parse_qsl qs).filterMap fun nv =>
    if nv.1 = key then some nv.2 else none).head?

/-- A character in the scheme alphabet of urllib.parse: ASCII letters,
digits, plus, minus and dot. -/
def isSchemeChar (c : Char) : Bool :=
  c.isAlpha || c.isDigit || c = '+' || c = '-' || c = '.'

/-- A character ending the netloc portion of a URL in urllib.parse. -/
def isNetlocEnd (c : Char) : Bool :=
  c = '/' || c = '?' || c = '#'

/-- The parsed components produced by urllib.parse.urlparse that the
source reads (params folded out of the path as urlparse does). -/
structure PyUrl where
  scheme : List Char
  netloc : List Char
  path : List Char
  query : List Char
  fragment : List Char
deriving Repr, DecidableEq

/-- Models the scheme recognition step of urllib.parse.urlsplit: a scheme
is peeled off when a colon occurs after a nonempty candidate that begins
with an ASCII letter and consists of scheme characters only; otherwise the
input is left whole. -/
def splitScheme (l : List Char) : List Char × List Char :=
  match splitAtFirst ':' l with
  | (before, some after) =>
    if before ≠ [] && (before.headD ' ').isAlpha then
      if before.all isSchemeChar then (before.map Char.toLower, after)
      else ([], l)
    else ([], l)
  | (_, none) => ([], l)

/-- Models urllib.parse.urlsplit on str input with default arguments:
strip leading control characters and spaces, remove tabs and line breaks,
peel the scheme, take the netloc after a double slash up to the first
slash, question mark or hash, split the fragment at the first hash and the
query at the first question mark. -/
def urlsplitRaw (l : List Char) : PyUrl :=
  let l := l.dropWhile fun c => c.toNat ≤ 32
  let l := l.filter fun c => !(c = '\t' || c = '\r' || c = '\n')
  let sr := splitScheme l
  let scheme := sr.1
  let rest := sr.2
  let nr : List Char × List Char :=
    match rest with
    | '/' :: '/' :: r =>
      (r.takeWhile (fun c => !isNetlocEnd c), r.dropWhile (fun c => !isNetlocEnd c))
    | _ => ([], rest)
  let netloc := nr.1
  let fr := splitAtFirst '#' nr.2
  let fragment := (fr.2).getD []
  let qr := splitAtFirst '?' fr.1
  let query := (qr.2).getD []
  ⟨scheme, netloc, qr.1, query, fragment⟩

/-- Models the parameter split urlparse applies on top of urlsplit: when
the last slash-separated segment of the path contains a semicolon, the
path is cut at that semicolon. -/
def splitparams (p : List Char) : List Char :=
  if ';' ∈ p then
    if '/' ∈ p then
      match splitAtFirst '/' p.reverse with
      | (revSeg, some revPre) =>
        revPre.reverse ++ '/' :: (splitAtFirst ';' revSeg.reverse).1
      | (_, none) => (splitAtFirst ';' p).1
    else (splitAtFirst ';' p).1
  else p

/-- Models urllib.parse.urlparse as read by the source: urlsplit plus the
parameter split on the path. -/
def urlparse (l : List Char) : PyUrl :=
  let u := urlsplitRaw l
  { u with path := splitparams u.path }

/-- Models the hostname attribute of a parse result: the netloc after any
user info, up to a port colon (or the bracketed host when present),
lowercased, and None when empty. -/
def hostnameOf (netloc : List Char) : Option (List Char) :=
  let hostinfo := afterLast '@' netloc
  let host :=
    match splitAtFirst '[' hostinfo with
    | (_, some afterBr) => (splitAtFirst ']' afterBr).1
    | (_, none) => (splitAtFirst ':' hostinfo).1
  if host = [] then none else some (host.map Char.toLower)

/-- Python truthiness of the resolver result as used at every call site
(if not video_id): None and the empty string are falsy. -/
def pyFalsy : Option String → Bool
  | none => true
  | some s => s = ""

namespace NewApp

/-- Embeds get_video_id of new_app.py (lines 43 to 78); main.py carries a
textually identical copy.  The branch structure follows the source line by
line: empty check, direct-ID regex check before any URL handling, strip,
urlparse, then host dispatch.  The try/except of the source cannot fire in
this model because every helper is total; urlparse never raises on the
inputs considered. -/
def get_video_id (url : String) : Option String :=
  let u := url.data
  if u = [] then none
  else if reMatchVideoId u then some url
  else
    let u2 := pyStrip u
    let p := urlparse u2
    let host := hostnameOf p.netloc
    if host = some (chars "youtu.be") ∨ host = some (chars "www.youtu.be") then
      some ⟨p.path.drop 1⟩
    else if host = some (chars "youtube.com") ∨ host = some (chars "www.youtube.com") then
      if p.path = chars "/watch" then
        (qsFirstValue (chars "v") p.query).map fun l => ⟨l⟩
      else if (chars "/embed/").isPrefixOf p.path ∨ (chars "/v/").isPrefixOf p.path then
        some ⟨(pySplitAll '/' p.path).getD 2 []⟩
      else none
    else none

end NewApp

namespace MainApp

/-- Embeds get_video_id of main.py (lines 6 to 41), textually identical to
the copy in new_app.py. -/
def get_video_id (url : String) : Option String :=
  let u := url.data
  if u = [] then none
  else if reMatchVideoId u then some url
  else
    let u2 := pyStrip u
    let p := urlparse u2
    let host := hostnameOf p.netloc
    if host = some (chars "youtu.be") ∨ host = some (chars "www.youtu.be") then
      some ⟨p.path.drop 1⟩
    else if host = some (chars "youtube.com") ∨ host = some (chars "www.youtube.com") then
      if p.path = chars "/watch" then
        (qsFirstValue (chars "v") p.query).map fun l => ⟨l⟩
      else if (chars "/embed/").isPrefixOf p.path ∨ (chars "/v/").isPrefixOf p.path then
        some ⟨(pySplitAll '/' p.path).getD 2 []⟩
      else none
    else none

end MainApp

/-- One raw caption cue as delivered by the transcript provider: the source
reads the keys text and start directly and reads duration through dict.get
with default, so duration may be absent. -/
structure CaptionCue where
  text : String
  start : ℚ
  duration : Option ℚ
deriving Repr, DecidableEq

/-- The response entry model of new_app.py (class TranscriptEntry). -/
structure TranscriptEntry where
  timestamp : String
  text : String
  start : ℚ
  duration : ℚ
deriving Repr, DecidableEq

/-- Models Python int() applied to the start value: truncation toward
zero, the floor for nonnegative values and the negated floor of the
negation otherwise. -/
def pyInt (q : ℚ) : Int :=
  if q < 0 then -⌊-q⌋ else ⌊q⌋

/-- Models the format specifier 02d of an f-string: decimal rendering
zero-padded on the left to width two (the sign counts toward the width, so
negative values render as plain decimal). -/
def pyFormat02d (n : Int) : String :=
  if n < 0 then toString n
  else if n.toNat < 10 then "0" ++ toString n.toNat else toString n.toNat

/-- The timestamp label computation shared verbatim by both
format_transcript implementations: truncate start to seconds, floor-divide
and take the remainder by sixty, render both zero-padded inside brackets. -/
def timeStr (start : ℚ) : String :=
  let timestamp := pyInt start
  let minutes := Int.fdiv timestamp 60
  let seconds := Int.emod timestamp 60
  "[" ++ pyFormat02d minutes ++ ":" ++ pyFormat02d seconds ++ "]"

namespace NewApp

/-- Embeds format_transcript of new_app.py (lines 80 to 96): one output
entry per input cue, in order, copying text and start, defaulting a
missing duration to zero. -/
def format_transcript (transcript : List CaptionCue) : List TranscriptEntry :=
  transcript.map fun entry =>
    ⟨timeStr entry.start, entry.text, entry.start, entry.duration.getD 0⟩

end NewApp

namespace MainApp

/-- Embeds format_transcript of main.py (lines 43 to 54): the same
per-cue timestamp label, rendered as lines joined by newlines. -/
def format_transcript (transcript : List CaptionCue) : String :=
  String.intercalate "\n"
    (transcript.map fun entry => timeStr entry.start ++ " " ++ entry.text)

end MainApp

/-- The response model of the transcript endpoint of new_app.py. -/
structure TranscriptResponse where
  video_id : String
  transcript : List TranscriptEntry
deriving Repr, DecidableEq

/-- Outcome of an HTTP handler: a successful body (FastAPI serves it with
status 200) or a raised HTTPException carrying a status and a detail. -/
inductive HttpOutcome where
  | ok (body : TranscriptResponse)
  | httpError (status : Nat) (detail : String)
deriving Repr, DecidableEq

/-- The HTTP status of an outcome; a plain body is served as 200. -/
def statusOf : HttpOutcome → Nat
  | .ok _ => 200
  | .httpError s _ => s

/-- Substring containment, modelling the Python in operator on strings as
used on the provider error message: the pattern occurs as a contiguous
run, that is as a prefix of some suffix. -/
def containsSub (pat : List Char) : List Char → Bool
  | [] => pat.isEmpty
  | x :: xs => pat.isPrefixOf (x :: xs) || containsSub pat xs

namespace NewApp

/-- Embeds the get_transcript handler of new_app.py (lines 111 to 141).
The external call YouTubeTranscriptApi.get_transcript (with the chosen
language list) is abstracted as the function argument fetch from the
resolved identifier to either a cue list or the text of the raised
exception. -/
def get_transcript (url : String)
    (fetch : String → Except String (List CaptionCue)) : HttpOutcome :=
  match get_video_id url with
  | none => .httpError 400 "Invalid YouTube URL or video ID"
  | some video_id =>
    if video_id = "" then .httpError 400 "Invalid YouTube URL or video ID"
    else
      match fetch video_id with
      | .ok transcript => .ok ⟨video_id, format_transcript transcript⟩
      | .error e =>
        if containsSub (chars "Unable to find a transcript") (chars e) then
          .httpError 404 "No transcript available for this video"
        else
          .httpError 500 ("Error fetching transcript: " ++ e)

end NewApp

/-! ## Helper lemmas about the character alphabet -/

/-- Identifier characters are none of the URL delimiter characters, are
not whitespace, and lie strictly above the control range. -/
theorem isIdChar_facts {c : Char} (h : isIdChar c = true) :
    c ≠ ':' ∧ c ≠ '/' ∧ c ≠ '?' ∧ c ≠ '#' ∧ c ≠ '&' ∧ c ≠ '=' ∧ c ≠ '+' ∧
    c ≠ '%' ∧ c ≠ ';' ∧ c ≠ '@' ∧ c ≠ '[' ∧ c ≠ '\t' ∧ c ≠ '\r' ∧ c ≠ '\n' ∧
    isPySpace c = false ∧ 32 < c.toNat := by
  have hnum : (97 ≤ c.toNat ∧ c.toNat ≤ 122) ∨ (65 ≤ c.toNat ∧ c.toNat ≤ 90) ∨
      (48 ≤ c.toNat ∧ c.toNat ≤ 57) ∨ c = '_' ∨ c = '-' := by
    simpa [isIdChar, Bool.or_eq_true, Bool.and_eq_true, decide_eq_true_eq,
      or_assoc] using h
  have h32 : 32 < c.toNat := by
    rcases hnum with ⟨h1, _⟩ | ⟨h1, _⟩ | ⟨h1, _⟩ | rfl | rfl <;> first | omega | decide
  have hsp : isPySpace c = false := by
    by_contra hne
    have : isPySpace c = true := by revert hne; cases isPySpace c <;> simp
    have hd : c = ' ' ∨ c = '\t' ∨ c = '\n' ∨ c = '\r' ∨ c = '\x0b' ∨ c = '\x0c' := by
      simpa [isPySpace, Bool.or_eq_true, decide_eq_true_eq, or_assoc] using this
    rcases hd with rfl | rfl | rfl | rfl | rfl | rfl <;> simp [isIdChar] at h
  refine ⟨?_, ?_, ?_, ?_, ?_, ?_, ?_, ?_, ?_, ?_, ?_, ?_, ?_, ?_, hsp, h32⟩ <;>
    (intro he; rw [he] at h; exact absurd h (by decide))

/-! ## Helper lemmas about the string helpers -/

theorem splitAtFirst_of_not_mem {c : Char} {l : List Char}
    (h : ∀ x ∈ l, x ≠ c) : splitAtFirst c l = (l, none) := by
  induction l with
  | nil => rfl
  | cons x xs ih =>
    have hx : x ≠ c := h x (List.mem_cons_self x xs)
    simp only [splitAtFirst, if_neg hx, ih fun y hy => h y (List.mem_cons_of_mem x hy)]

theorem splitAtFirst_append {c : Char} {l₁ l₂ : List Char}
    (h : ∀ x ∈ l₁, x ≠ c) : splitAtFirst c (l₁ ++ c :: l₂) = (l₁, some l₂) := by
  induction l₁ with
  | nil => simp [splitAtFirst]
  | cons x xs ih =>
    have hx : x ≠ c := h x (List.mem_cons_self x xs)
    have ih' := ih fun y hy => h y (List.mem_cons_of_mem x hy)
    simp [List.cons_append, splitAtFirst, if_neg hx, ih']

theorem pySplitAll_ne_nil (c : Char) (l : List Char) : pySplitAll c l ≠ [] := by
  induction l with
  | nil => simp [pySplitAll]
  | cons x xs ih =>
    by_cases hx : x = c
    · simp [pySplitAll, hx]
    · simp only [pySplitAll, if_neg hx]
      cases hps : pySplitAll c xs with
      | nil => simp
      | cons h t => simp

theorem pySplitAll_of_not_mem {c : Char} {l : List Char}
    (h : ∀ x ∈ l, x ≠ c) : pySplitAll c l = [l] := by
  induction l with
  | nil => rfl
  | cons x xs ih =>
    have hx : x ≠ c := h x (List.mem_cons_self x xs)
    simp only [pySplitAll, if_neg hx, ih fun y hy => h y (List.mem_cons_of_mem x hy)]

theorem pySplitAll_append {c : Char} {l₁ l₂ : List Char}
    (h : ∀ x ∈ l₁, x ≠ c) : pySplitAll c (l₁ ++ c :: l₂) = l₁ :: pySplitAll c l₂ := by
  induction l₁ with
  | nil => simp [pySplitAll]
  | cons x xs ih =>
    have hx : x ≠ c := h x (List.mem_cons_self x xs)
    have ih' := ih fun y hy => h y (List.mem_cons_of_mem x hy)
    simp [List.cons_append, pySplitAll, if_neg hx, ih']

theorem pySplitAll_cons_sep (c : Char) (xs : List Char) :
    pySplitAll c (c :: xs) = [] :: pySplitAll c xs := by
  simp [pySplitAll]

theorem dropWhile_eq_self_of {p : Char → Bool} {l : List Char}
    (h : ∀ x ∈ l, p x = false) : l.dropWhile p = l := by
  cases l with
  | nil => rfl
  | cons x xs => simp [List.dropWhile_cons, h x (List.mem_cons_self x xs)]

theorem pyStrip_eq_self {l : List Char}
    (h : ∀ x ∈ l, isPySpace x = false) : pyStrip l = l := by
  unfold pyStrip
  rw [dropWhile_eq_self_of h, dropWhile_eq_self_of fun x hx => h x (by
    simpa using List.mem_reverse.mp hx), List.reverse_reverse]

theorem takeWhile_middle {p : Char → Bool} {l₁ l₂ : List Char} {c : Char}
    (h1 : ∀ x ∈ l₁, p x = true) (h2 : p c = false) :
    (l₁ ++ c :: l₂).takeWhile p = l₁ ∧ (l₁ ++ c :: l₂).dropWhile p = c :: l₂ := by
  induction l₁ with
  | nil => simp [List.takeWhile_cons, List.dropWhile_cons, h2]
  | cons x xs ih =>
    have hx : p x = true := h1 x (List.mem_cons_self x xs)
    have := ih fun y hy => h1 y (List.mem_cons_of_mem x hy)
    simp only [List.cons_append, List.takeWhile_cons, List.dropWhile_cons, hx,
      if_pos rfl]
    simp only [this, true_and, and_true]
    simp [this.1, this.2]

theorem pyUnquote_cons_of_ne {c : Char} {rest : List Char} (hc : c ≠ '%') :
    pyUnquote (c :: rest) = c :: pyUnquote rest := by
  conv_lhs => rw [pyUnquote.eq_def]
  split <;> simp_all

theorem pyUnquote_eq_self {l : List Char} (h : ∀ x ∈ l, x ≠ '%') :
    pyUnquote l = l := by
  induction l with
  | nil => rfl
  | cons x xs ih =>
    have hx : x ≠ '%' := h x (List.mem_cons_self x xs)
    have ihx := ih fun y hy => h y (List.mem_cons_of_mem x hy)
    rw [pyUnquote_cons_of_ne hx, ihx]

theorem pyUnquotePlus_eq_self {l : List Char}
    (h : ∀ x ∈ l, x ≠ '%' ∧ x ≠ '+') : pyUnquotePlus l = l := by
  unfold pyUnquotePlus
  have hm : (l.map fun c => if c = '+' then ' ' else c) = l := by
    have := List.map_congr_left (l := l)
      (f := fun c => if c = '+' then ' ' else c) (g := id)
      (fun a ha => by simp [(h a ha).2])
    simpa using this
  rw [hm]
  exact pyUnquote_eq_self fun x hx => (h x hx).1

/-- All the per-character consequences of lying in the identifier
alphabet, packaged for lists. -/
theorem token_no_delims {t : List Char} (ht : ∀ x ∈ t, isIdChar x = true) :
    (∀ x ∈ t, x ≠ ':') ∧ (∀ x ∈ t, x ≠ '/') ∧ (∀ x ∈ t, x ≠ '?') ∧
    (∀ x ∈ t, x ≠ '#') ∧ (∀ x ∈ t, x ≠ '&') ∧ (∀ x ∈ t, x ≠ '=') ∧
    (∀ x ∈ t, x ≠ '+') ∧ (∀ x ∈ t, x ≠ '%') ∧ (∀ x ∈ t, x ≠ ';') ∧
    (∀ x ∈ t, isPySpace x = false) ∧
    (∀ x ∈ t, (!(x = '\t' || x = '\r' || x = '\n')) = true) ∧
    (∀ x ∈ t, (decide (x.toNat ≤ 32)) = false) := by
  refine ⟨?_, ?_, ?_, ?_, ?_, ?_, ?_, ?_, ?_, ?_, ?_, ?_⟩
  · exact fun x hx he => absurd (he ▸ ht x hx) (by decide)
  · exact fun x hx he => absurd (he ▸ ht x hx) (by decide)
  · exact fun x hx he => absurd (he ▸ ht x hx) (by decide)
  · exact fun x hx he => absurd (he ▸ ht x hx) (by decide)
  · exact fun x hx he => absurd (he ▸ ht x hx) (by decide)
  · exact fun x hx he => absurd (he ▸ ht x hx) (by decide)
  · exact fun x hx he => absurd (he ▸ ht x hx) (by decide)
  · exact fun x hx he => absurd (he ▸ ht x hx) (by decide)
  · exact fun x hx he => absurd (he ▸ ht x hx) (by decide)
  · intro x hx
    exact (isIdChar_facts (ht x hx)).2.2.2.2.2.2.2.2.2.2.2.2.2.2.1
  · intro x hx
    have hf := isIdChar_facts (ht x hx)
    have h1 : x ≠ '\t' := hf.2.2.2.2.2.2.2.2.2.2.2.1
    have h2 : x ≠ '\r' := hf.2.2.2.2.2.2.2.2.2.2.2.2.1
    have h3 : x ≠ '\n' := hf.2.2.2.2.2.2.2.2.2.2.2.2.2.1
    simp [h1, h2, h3]
  · intro x hx
    have h32 : 32 < x.toNat := (isIdChar_facts (ht x hx)).2.2.2.2.2.2.2.2.2.2.2.2.2.2.2
    exact decide_eq_false (by omega)

/-- A bare token over the identifier alphabet does not parse as a URL
with a netloc: there is no scheme and no double slash, so the netloc is
empty and the hostname attribute is None. -/
theorem hostname_none_of_token {t : List Char} (ht : ∀ x ∈ t, isIdChar x = true) :
    hostnameOf (urlparse t).netloc = none := by
  obtain ⟨hcolon, hslash, -, -, -, -, -, -, -, -, htab, hc0⟩ := token_no_delims ht
  have h1 : (t.dropWhile fun c => c.toNat ≤ 32) = t :=
    dropWhile_eq_self_of hc0
  have h2 : (t.filter fun c => !(c = '\t' || c = '\r' || c = '\n')) = t :=
    List.filter_eq_self.mpr htab
  have h3 : splitScheme t = ([], t) := by
    unfold splitScheme
    rw [splitAtFirst_of_not_mem hcolon]
  have hnet : (urlsplitRaw t).netloc = [] := by
    unfold urlsplitRaw
    simp only [h1, h2, h3]
    cases t with
    | nil => rfl
    | cons c r =>
      have hc : c ≠ '/' := hslash c (List.mem_cons_self c r)
      split
      · rename_i heq
        rw [List.cons.injEq] at heq
        exact absurd heq.1 hc
      · rfl
  have : (urlparse t).netloc = [] := by
    unfold urlparse
    simpa using hnet
  rw [this]
  rfl

/-- Parsing the short-link URL form: scheme https, netloc youtu.be, and
the path keeps the leading slash followed by the token. -/
theorem urlparse_shortlink {t : List Char} (ht : ∀ x ∈ t, isIdChar x = true) :
    urlparse (chars "https://youtu.be/" ++ t) =
      ⟨chars "https", chars "youtu.be", '/' :: t, [], []⟩ := by
  obtain ⟨hcolon, hslash, hq, hhash, -, -, -, -, hsemi, -, htab, hc0⟩ := token_no_delims ht
  have hdrop : ((chars "https://youtu.be/" ++ t).dropWhile fun c => c.toNat ≤ 32) =
      chars "https://youtu.be/" ++ t := rfl
  have hfilt : ((chars "https://youtu.be/" ++ t).filter
      fun c => !(c = '\t' || c = '\r' || c = '\n')) = chars "https://youtu.be/" ++ t := by
    rw [List.filter_append]
    rw [show (chars "https://youtu.be/").filter
      (fun c => !(c = '\t' || c = '\r' || c = '\n')) = chars "https://youtu.be/" from by decide]
    rw [List.filter_eq_self.mpr htab]
  have hsch : splitScheme (chars "https://youtu.be/" ++ t) =
      (chars "https", chars "//youtu.be/" ++ t) := rfl
  have hnohash : ∀ x ∈ '/' :: t, x ≠ '#' := by
    intro x hx
    rcases List.mem_cons.mp hx with rfl | hm
    · decide
    · exact hhash x hm
  have hnoq : ∀ x ∈ '/' :: t, x ≠ '?' := by
    intro x hx
    rcases List.mem_cons.mp hx with rfl | hm
    · decide
    · exact hq x hm
  have hnosemi : ¬ (';' ∈ ('/' :: t)) := by
    intro hm
    rcases List.mem_cons.mp hm with he | hm2
    · exact absurd he (by decide)
    · exact hsemi ';' hm2 rfl
  have htake : (['y','o','u','t','u','.','b','e'] ++ '/' :: t).takeWhile
      (fun c => !isNetlocEnd c) = ['y','o','u','t','u','.','b','e'] :=
    (takeWhile_middle (by decide) (by decide)).1
  have hdropw : (['y','o','u','t','u','.','b','e'] ++ '/' :: t).dropWhile
      (fun c => !isNetlocEnd c) = '/' :: t :=
    (takeWhile_middle (by decide) (by decide)).2
  have hsplit : urlsplitRaw (chars "https://youtu.be/" ++ t) =
      ⟨chars "https", chars "youtu.be", '/' :: t, [], []⟩ := by
    unfold urlsplitRaw
    simp only [hdrop, hfilt, hsch]
    rw [show chars "//youtu.be/" ++ t =
      '/' :: '/' :: (['y','o','u','t','u','.','b','e'] ++ '/' :: t) from rfl]
    simp only [htake, hdropw]
    rw [splitAtFirst_of_not_mem hnohash]
    simp only [Option.getD_none]
    rw [splitAtFirst_of_not_mem hnoq]
    rfl
  unfold urlparse
  rw [hsplit]
  simp only [splitparams]
  rw [if_neg hnosemi]

/-- Parsing a watch URL: path /watch, and everything after the question
mark becomes the query verbatim, provided the query part carries no hash
and no characters that urlsplit would remove. -/
theorem urlparse_watch {q : List Char}
    (hq : ∀ x ∈ q, x ≠ '#' ∧ (!(x = '\t' || x = '\r' || x = '\n')) = true) :
    urlparse (chars "https://www.youtube.com/watch?" ++ q) =
      ⟨chars "https", chars "www.youtube.com", chars "/watch", q, []⟩ := by
  have hdrop : ((chars "https://www.youtube.com/watch?" ++ q).dropWhile
      fun c => c.toNat ≤ 32) = chars "https://www.youtube.com/watch?" ++ q := rfl
  have hfilt : ((chars "https://www.youtube.com/watch?" ++ q).filter
      fun c => !(c = '\t' || c = '\r' || c = '\n')) =
      chars "https://www.youtube.com/watch?" ++ q := by
    rw [List.filter_append]
    rw [show (chars "https://www.youtube.com/watch?").filter
      (fun c => !(c = '\t' || c = '\r' || c = '\n')) =
      chars "https://www.youtube.com/watch?" from by decide]
    rw [List.filter_eq_self.mpr fun x hx => (hq x hx).2]
  have hsch : splitScheme (chars "https://www.youtube.com/watch?" ++ q) =
      (chars "https", chars "//www.youtube.com/watch?" ++ q) := rfl
  have htake : ((chars "www.youtube.com") ++ '/' :: (chars "watch?" ++ q)).takeWhile
      (fun c => !isNetlocEnd c) = chars "www.youtube.com" :=
    (takeWhile_middle (by decide) (by decide)).1
  have hdropw : ((chars "www.youtube.com") ++ '/' :: (chars "watch?" ++ q)).dropWhile
      (fun c => !isNetlocEnd c) = '/' :: (chars "watch?" ++ q) :=
    (takeWhile_middle (by decide) (by decide)).2
  have hnohash : ∀ x ∈ '/' :: (chars "watch?" ++ q), x ≠ '#' := by
    have hconc : ∀ x ∈ chars "watch?", x ≠ '#' := by decide
    intro x hx
    rcases List.mem_cons.mp hx with rfl | hm
    · decide
    · rcases List.mem_append.mp hm with hl | hr
      · exact hconc x hl
      · exact (hq x hr).1
  have hquery : splitAtFirst '?' ('/' :: (chars "watch?" ++ q)) =
      (chars "/watch", some q) := by
    rw [show '/' :: (chars "watch?" ++ q) =
      ['/','w','a','t','c','h'] ++ '?' :: q from rfl]
    exact splitAtFirst_append (by decide)
  have hsplit : urlsplitRaw (chars "https://www.youtube.com/watch?" ++ q) =
      ⟨chars "https", chars "www.youtube.com", chars "/watch", q, []⟩ := by
    unfold urlsplitRaw
    simp only [hdrop, hfilt, hsch]
    rw [show chars "//www.youtube.com/watch?" ++ q =
      '/' :: '/' :: ((chars "www.youtube.com") ++ '/' :: (chars "watch?" ++ q)) from rfl]
    simp only [htake, hdropw]
    rw [splitAtFirst_of_not_mem hnohash]
    simp only [Option.getD_none]
    rw [hquery]
    rfl
  unfold urlparse
  rw [hsplit]
  simp only [splitparams]
  rw [if_neg (by decide)]

/-- Parsing an embed URL: path /embed/ followed by the token, empty
query. -/
theorem urlparse_embed {t : List Char} (ht : ∀ x ∈ t, isIdChar x = true) :
    urlparse (chars "https://www.youtube.com/embed/" ++ t) =
      ⟨chars "https", chars "www.youtube.com", chars "/embed/" ++ t, [], []⟩ := by
  obtain ⟨-, -, hq, hhash, -, -, -, -, hsemi, -, htab, -⟩ := token_no_delims ht
  have hdrop : ((chars "https://www.youtube.com/embed/" ++ t).dropWhile
      fun c => c.toNat ≤ 32) = chars "https://www.youtube.com/embed/" ++ t := rfl
  have hfilt : ((chars "https://www.youtube.com/embed/" ++ t).filter
      fun c => !(c = '\t' || c = '\r' || c = '\n')) =
      chars "https://www.youtube.com/embed/" ++ t := by
    rw [List.filter_append]
    rw [show (chars "https://www.youtube.com/embed/").filter
      (fun c => !(c = '\t' || c = '\r' || c = '\n')) =
      chars "https://www.youtube.com/embed/" from by decide]
    rw [List.filter_eq_self.mpr htab]
  have hsch : splitScheme (chars "https://www.youtube.com/embed/" ++ t) =
      (chars "https", chars "//www.youtube.com/embed/" ++ t) := rfl
  have htake : ((chars "www.youtube.com") ++ '/' :: (chars "embed/" ++ t)).takeWhile
      (fun c => !isNetlocEnd c) = chars "www.youtube.com" :=
    (takeWhile_middle (by decide) (by decide)).1
  have hdropw : ((chars "www.youtube.com") ++ '/' :: (chars "embed/" ++ t)).dropWhile
      (fun c => !isNetlocEnd c) = '/' :: (chars "embed/" ++ t) :=
    (takeWhile_middle (by decide) (by decide)).2
  have hnohash : ∀ x ∈ '/' :: (chars "embed/" ++ t), x ≠ '#' := by
    have hconc : ∀ x ∈ chars "embed/", x ≠ '#' := by decide
    intro x hx
    rcases List.mem_cons.mp hx with rfl | hm
    · decide
    · rcases List.mem_append.mp hm with hl | hr
      · exact hconc x hl
      · exact hhash x hr
  have hnoq : ∀ x ∈ '/' :: (chars "embed/" ++ t), x ≠ '?' := by
    have hconc : ∀ x ∈ chars "embed/", x ≠ '?' := by decide
    intro x hx
    rcases List.mem_cons.mp hx with rfl | hm
    · decide
    · rcases List.mem_append.mp hm with hl | hr
      · exact hconc x hl
      · exact hq x hr
  have hnosemi : ¬ (';' ∈ ('/' :: (chars "embed/" ++ t))) := by
    have hconc : ¬ (';' ∈ chars "embed/") := by decide
    intro hm
    rcases List.mem_cons.mp hm with he | hm2
    · exact absurd he (by decide)
    · rcases List.mem_append.mp hm2 with hl | hr
      · exact hconc hl
      · exact hsemi ';' hr rfl
  have hsplit : urlsplitRaw (chars "https://www.youtube.com/embed/" ++ t) =
      ⟨chars "https", chars "www.youtube.com", '/' :: (chars "embed/" ++ t), [], []⟩ := by
    unfold urlsplitRaw
    simp only [hdrop, hfilt, hsch]
    rw [show chars "//www.youtube.com/embed/" ++ t =
      '/' :: '/' :: ((chars "www.youtube.com") ++ '/' :: (chars "embed/" ++ t)) from rfl]
    simp only [htake, hdropw]
    rw [splitAtFirst_of_not_mem hnohash]
    simp only [Option.getD_none]
    rw [splitAtFirst_of_not_mem hnoq]
    rfl
  unfold urlparse
  rw [hsplit]
  simp only [splitparams]
  rw [if_neg hnosemi]
  rfl

theorem forall_mem_append_split {P : Char → Prop} {l₁ l₂ : List Char}
    (h1 : ∀ x ∈ l₁, P x) (h2 : ∀ x ∈ l₂, P x) : ∀ x ∈ l₁ ++ l₂, P x := by
  intro x hx
  rcases List.mem_append.mp hx with h | h
  · exact h1 x h
  · exact h2 x h

theorem parse_qsl_append {l₁ l₂ : List Char} (h : ∀ x ∈ l₁, x ≠ '&') :
    parse_qsl (l₁ ++ '&' :: l₂) = parse_qsl l₁ ++ parse_qsl l₂ := by
  unfold parse_qsl
  rw [pySplitAll_append h, pySplitAll_of_not_mem h]
  simp only [List.filterMap_cons, List.filterMap_nil]
  split <;> rename_i heq <;> simp [heq]

/-- The query of the form v= followed by a nonempty token parses to the
single pair with name v and the token as value. -/
theorem parse_qsl_vtoken {t : List Char} (ht : ∀ x ∈ t, isIdChar x = true)
    (hne : t ≠ []) : parse_qsl (chars "v=" ++ t) = [(chars "v", t)] := by
  obtain ⟨-, -, -, -, hamp, -, hplus, hpct, -, -, -, -⟩ := token_no_delims ht
  have h1 : pySplitAll '&' ('v' :: '=' :: t) = ['v' :: '=' :: t] := by
    apply pySplitAll_of_not_mem
    intro x hx
    rcases List.mem_cons.mp hx with rfl | hx
    · decide
    rcases List.mem_cons.mp hx with rfl | hx
    · decide
    · exact hamp x hx
  have h2 : splitAtFirst '=' ('v' :: '=' :: t) = (['v'], some t) := by
    rw [show 'v' :: '=' :: t = ['v'] ++ '=' :: t from rfl]
    exact splitAtFirst_append (by decide)
  have h3 : pyUnquotePlus t = t :=
    pyUnquotePlus_eq_self fun x hx => ⟨hpct x hx, hplus x hx⟩
  unfold parse_qsl
  rw [show chars "v=" ++ t = 'v' :: '=' :: t from rfl, h1]
  simp only [List.filterMap_cons, List.filterMap_nil, h2]
  rw [if_neg (by simp : ¬('v' :: '=' :: t = []))]
  rw [if_neg hne]
  rw [h3]
  rfl

/-- The first value of the key v when the parsed query starts with a pair
named v. -/
theorem qsFirstValue_of_head {key t : List Char} {qs : List Char}
    {r : List (List Char × List Char)}
    (h : parse_qsl qs = (key, t) :: r) :
    qsFirstValue key qs = some t := by
  unfold qsFirstValue
  rw [h]
  simp [List.filterMap_cons]

theorem dataAppend (a b : String) : (a ++ b).data = a.data ++ b.data := by
  cases a
  cases b
  rfl

theorem mkData (s : String) : String.mk s.data = s := by
  cases s
  rfl

theorem bool_not_true {b : Bool} (h : b = false) : ¬ (b = true) := by
  simp [h]

theorem reMatch_false_of_len {l : List Char} (h1 : l.length ≠ 11)
    (h2 : l.length ≠ 12) : reMatchVideoId l = false := by
  unfold reMatchVideoId
  rw [decide_eq_false h1, decide_eq_false h2]
  simp

theorem reMatch_true_of_shape {l : List Char} (h1 : l.length = 11)
    (h2 : l.all isIdChar = true) : reMatchVideoId l = true := by
  unfold reMatchVideoId
  simp [h1, h2]

theorem shape_spec {s : String} (h : isValidIdShape s = true) :
    s.data.length = 11 ∧ (∀ x ∈ s.data, isIdChar x = true) := by
  unfold isValidIdShape at h
  rw [Bool.and_eq_true, decide_eq_true_eq, List.all_eq_true] at h
  exact h

/-- The direct-ID fast path: a well-shaped token is returned unchanged,
before URL parsing is reached. -/
theorem gv_direct {s : String} (h : isValidIdShape s = true) :
    NewApp.get_video_id s = some s := by
  obtain ⟨hlen, hall⟩ := shape_spec h
  have hne : ¬ (s.data = []) := by
    intro he
    rw [he] at hlen
    simp at hlen
  unfold NewApp.get_video_id
  rw [if_neg hne, if_pos (reMatch_true_of_shape hlen (List.all_eq_true.mpr hall))]

/-- Resolution of the short-link form. -/
theorem gv_shortlink {v : String} (h : isValidIdShape v = true) :
    NewApp.get_video_id ("https://youtu.be/" ++ v) = some v := by
  obtain ⟨hlen, hall⟩ := shape_spec h
  obtain ⟨-, -, -, -, -, -, -, -, -, hspace, -, -⟩ := token_no_delims hall
  have hd : ("https://youtu.be/" ++ v).data = chars "https://youtu.be/" ++ v.data :=
    dataAppend _ _
  have hne : ¬ (chars "https://youtu.be/" ++ v.data = []) := by
    rw [show chars "https://youtu.be/" ++ v.data =
      'h' :: (chars "ttps://youtu.be/" ++ v.data) from rfl]
    exact List.cons_ne_nil _ _
  have hlen28 : (chars "https://youtu.be/" ++ v.data).length = 28 := by
    rw [List.length_append, hlen]
    rfl
  have hre : reMatchVideoId (chars "https://youtu.be/" ++ v.data) = false :=
    reMatch_false_of_len (by rw [hlen28]; decide) (by rw [hlen28]; decide)
  have hstrip : pyStrip (chars "https://youtu.be/" ++ v.data) =
      chars "https://youtu.be/" ++ v.data :=
    pyStrip_eq_self (forall_mem_append_split (by decide) hspace)
  unfold NewApp.get_video_id
  rw [hd, if_neg hne, if_neg (bool_not_true hre), hstrip]
  simp only [urlparse_shortlink hall]
  have hcond : hostnameOf (chars "youtu.be") = some (chars "youtu.be") ∨
      hostnameOf (chars "youtu.be") = some (chars "www.youtu.be") := Or.inl rfl
  rw [if_pos hcond]
  simp only [List.drop_succ_cons, List.drop_zero, mkData]

/-- Resolution of the plain watch form. -/
theorem gv_watch {v : String} (h : isValidIdShape v = true) :
    NewApp.get_video_id ("https://www.youtube.com/watch?v=" ++ v) = some v := by
  obtain ⟨hlen, hall⟩ := shape_spec h
  obtain ⟨-, -, -, hhash, -, -, -, -, -, hspace, htab, -⟩ := token_no_delims hall
  have htne : v.data ≠ [] := by
    intro he
    rw [he] at hlen
    simp at hlen
  have hd : ("https://www.youtube.com/watch?v=" ++ v).data =
      chars "https://www.youtube.com/watch?v=" ++ v.data := dataAppend _ _
  have hne : ¬ (chars "https://www.youtube.com/watch?v=" ++ v.data = []) := by
    rw [show chars "https://www.youtube.com/watch?v=" ++ v.data =
      'h' :: (chars "ttps://www.youtube.com/watch?v=" ++ v.data) from rfl]
    exact List.cons_ne_nil _ _
  have hlen43 : (chars "https://www.youtube.com/watch?v=" ++ v.data).length = 43 := by
    rw [List.length_append, hlen]
    rfl
  have hre : reMatchVideoId (chars "https://www.youtube.com/watch?v=" ++ v.data) = false :=
    reMatch_false_of_len (by rw [hlen43]; decide) (by rw [hlen43]; decide)
  have hstrip : pyStrip (chars "https://www.youtube.com/watch?v=" ++ v.data) =
      chars "https://www.youtube.com/watch?v=" ++ v.data :=
    pyStrip_eq_self (forall_mem_append_split (by decide) hspace)
  have hqsafe : ∀ x ∈ chars "v=" ++ v.data,
      x ≠ '#' ∧ (!(x = '\t' || x = '\r' || x = '\n')) = true :=
    forall_mem_append_split (by decide) (fun x hx => ⟨hhash x hx, htab x hx⟩)
  have hparse : urlparse (chars "https://www.youtube.com/watch?v=" ++ v.data) =
      ⟨chars "https", chars "www.youtube.com", chars "/watch", chars "v=" ++ v.data, []⟩ := by
    rw [show chars "https://www.youtube.com/watch?v=" ++ v.data =
      chars "https://www.youtube.com/watch?" ++ (chars "v=" ++ v.data) from rfl]
    exact urlparse_watch hqsafe
  unfold NewApp.get_video_id
  rw [hd, if_neg hne, if_neg (bool_not_true hre), hstrip]
  simp only [hparse]
  have hcond : hostnameOf (chars "www.youtube.com") = some (chars "youtube.com") ∨
      hostnameOf (chars "www.youtube.com") = some (chars "www.youtube.com") := Or.inr rfl
  rw [if_pos hcond, if_pos trivial]
  rw [qsFirstValue_of_head (parse_qsl_vtoken hall htne)]
  simp only [Option.map_some', mkData]
  rw [if_neg (by decide)]

/-- Resolution of the watch form with a trailing extra query parameter. -/
theorem gv_watch_t30 {v : String} (h : isValidIdShape v = true) :
    NewApp.get_video_id ("https://www.youtube.com/watch?v=" ++ v ++ "&t=30") = some v := by
  obtain ⟨hlen, hall⟩ := shape_spec h
  obtain ⟨-, -, -, hhash, hamp, -, -, -, -, hspace, htab, -⟩ := token_no_delims hall
  have htne : v.data ≠ [] := by
    intro he
    rw [he] at hlen
    simp at hlen
  have hd : ("https://www.youtube.com/watch?v=" ++ v ++ "&t=30").data =
      chars "https://www.youtube.com/watch?v=" ++ v.data ++ chars "&t=30" := by
    rw [dataAppend, dataAppend]
    rfl
  have hne : ¬ (chars "https://www.youtube.com/watch?v=" ++ v.data ++ chars "&t=30" = []) := by
    rw [show chars "https://www.youtube.com/watch?v=" ++ v.data ++ chars "&t=30" =
      'h' :: (chars "ttps://www.youtube.com/watch?v=" ++ v.data ++ chars "&t=30") from rfl]
    exact List.cons_ne_nil _ _
  have hlen48 : (chars "https://www.youtube.com/watch?v=" ++ v.data ++ chars "&t=30").length
      = 48 := by
    rw [List.length_append, List.length_append, hlen]
    rfl
  have hre : reMatchVideoId
      (chars "https://www.youtube.com/watch?v=" ++ v.data ++ chars "&t=30") = false :=
    reMatch_false_of_len (by rw [hlen48]; decide) (by rw [hlen48]; decide)
  have hstrip : pyStrip (chars "https://www.youtube.com/watch?v=" ++ v.data ++ chars "&t=30") =
      chars "https://www.youtube.com/watch?v=" ++ v.data ++ chars "&t=30" :=
    pyStrip_eq_self (forall_mem_append_split
      (forall_mem_append_split (by decide) hspace) (by decide))
  have hqsafe : ∀ x ∈ chars "v=" ++ v.data ++ chars "&t=30",
      x ≠ '#' ∧ (!(x = '\t' || x = '\r' || x = '\n')) = true :=
    forall_mem_append_split
      (forall_mem_append_split (by decide) (fun x hx => ⟨hhash x hx, htab x hx⟩)) (by decide)
  have hparse : urlparse (chars "https://www.youtube.com/watch?v=" ++ v.data ++ chars "&t=30") =
      ⟨chars "https", chars "www.youtube.com", chars "/watch",
        chars "v=" ++ v.data ++ chars "&t=30", []⟩ := by
    rw [show chars "https://www.youtube.com/watch?v=" ++ v.data ++ chars "&t=30" =
      chars "https://www.youtube.com/watch?" ++ (chars "v=" ++ v.data ++ chars "&t=30")
      from rfl]
    exact urlparse_watch hqsafe
  have hqsl : parse_qsl (chars "v=" ++ v.data ++ chars "&t=30") =
      (chars "v", v.data) :: parse_qsl (chars "t=30") := by
    rw [show chars "v=" ++ v.data ++ chars "&t=30" =
      (chars "v=" ++ v.data) ++ '&' :: chars "t=30" from rfl]
    rw [parse_qsl_append (forall_mem_append_split (by decide) hamp)]
    rw [parse_qsl_vtoken hall htne]
    rfl
  unfold NewApp.get_video_id
  rw [hd, if_neg hne, if_neg (bool_not_true hre), hstrip]
  simp only [hparse]
  have hcond : hostnameOf (chars "www.youtube.com") = some (chars "youtube.com") ∨
      hostnameOf (chars "www.youtube.com") = some (chars "www.youtube.com") := Or.inr rfl
  rw [if_pos hcond, if_pos trivial]
  rw [qsFirstValue_of_head hqsl]
  simp only [Option.map_some', mkData]
  rw [if_neg (by decide)]

/-- Resolution of the embed form. -/
theorem gv_embed {v : String} (h : isValidIdShape v = true) :
    NewApp.get_video_id ("https://www.youtube.com/embed/" ++ v) = some v := by
  obtain ⟨hlen, hall⟩ := shape_spec h
  obtain ⟨-, hslash, -, -, -, -, -, -, -, hspace, -, -⟩ := token_no_delims hall
  have hd : ("https://www.youtube.com/embed/" ++ v).data =
      chars "https://www.youtube.com/embed/" ++ v.data := dataAppend _ _
  have hne : ¬ (chars "https://www.youtube.com/embed/" ++ v.data = []) := by
    rw [show chars "https://www.youtube.com/embed/" ++ v.data =
      'h' :: (chars "ttps://www.youtube.com/embed/" ++ v.data) from rfl]
    exact List.cons_ne_nil _ _
  have hlen41 : (chars "https://www.youtube.com/embed/" ++ v.data).length = 41 := by
    rw [List.length_append, hlen]
    rfl
  have hre : reMatchVideoId (chars "https://www.youtube.com/embed/" ++ v.data) = false :=
    reMatch_false_of_len (by rw [hlen41]; decide) (by rw [hlen41]; decide)
  have hstrip : pyStrip (chars "https://www.youtube.com/embed/" ++ v.data) =
      chars "https://www.youtube.com/embed/" ++ v.data :=
    pyStrip_eq_self (forall_mem_append_split (by decide) hspace)
  have hnotwatch : ¬ (chars "/embed/" ++ v.data = chars "/watch") := by
    intro he
    have hl := congrArg List.length he
    rw [List.length_append, hlen] at hl
    exact absurd hl (by decide)
  have hisp : (chars "/embed/").isPrefixOf (chars "/embed/" ++ v.data) = true :=
    List.isPrefixOf_iff_prefix.mpr ⟨v.data, rfl⟩
  have hsplit2 : pySplitAll '/' (chars "/embed/" ++ v.data) = [[], chars "embed", v.data] := by
    rw [show chars "/embed/" ++ v.data = '/' :: (chars "embed" ++ '/' :: v.data) from rfl]
    rw [pySplitAll_cons_sep, pySplitAll_append (by decide), pySplitAll_of_not_mem hslash]
  unfold NewApp.get_video_id
  rw [hd, if_neg hne, if_neg (bool_not_true hre), hstrip]
  simp only [urlparse_embed hall]
  have hcond : hostnameOf (chars "www.youtube.com") = some (chars "youtube.com") ∨
      hostnameOf (chars "www.youtube.com") = some (chars "www.youtube.com") := Or.inr rfl
  rw [if_pos hcond, if_neg hnotwatch, if_pos (Or.inl hisp)]
  rw [hsplit2]
  rw [show ([[], chars "embed", v.data] : List (List Char)).getD 2 [] = v.data from rfl]
  rw [if_neg (by decide)]

/-- Dropping a satisfying block at the front continues into the rest. -/
theorem dropWhile_append_of_all {p : Char → Bool} {l₁ l₂ : List Char}
    (h : ∀ x ∈ l₁, p x = true) :
    (l₁ ++ l₂).dropWhile p = l₂.dropWhile p := by
  induction l₁ with
  | nil => rfl
  | cons x xs ih =>
    rw [List.cons_append, List.dropWhile_cons, if_pos (h x (List.mem_cons_self x xs))]
    exact ih fun y hy => h y (List.mem_cons_of_mem x hy)

/-- Whitespace characters are not identifier characters. -/
theorem isPySpace_not_idChar {c : Char} (h : isPySpace c = true) :
    isIdChar c = false := by
  have hd : c = ' ' ∨ c = '\t' ∨ c = '\n' ∨ c = '\r' ∨ c = '\x0b' ∨ c = '\x0c' := by
    simpa [isPySpace, Bool.or_eq_true, decide_eq_true_eq, or_assoc] using h
  rcases hd with rfl | rfl | rfl | rfl | rfl | rfl <;> decide

/-- Stripping removes surrounding whitespace padding and nothing of a
whitespace-free core. -/
theorem pyStrip_padded {pre post t : List Char}
    (hpre : ∀ x ∈ pre, isPySpace x = true) (hpost : ∀ x ∈ post, isPySpace x = true)
    (ht : ∀ x ∈ t, isPySpace x = false) (hne : t ≠ []) :
    pyStrip (pre ++ t ++ post) = t := by
  obtain ⟨y, ys, rfl⟩ : ∃ y ys, t = y :: ys := by
    cases t with
    | nil => exact absurd rfl hne
    | cons y ys => exact ⟨y, ys, rfl⟩
  unfold pyStrip
  rw [List.append_assoc, dropWhile_append_of_all hpre]
  rw [List.cons_append, List.dropWhile_cons,
    if_neg (by simp [ht y (List.mem_cons_self y ys)])]
  rw [← List.cons_append, List.reverse_append]
  rw [dropWhile_append_of_all fun x hx => hpost x (List.mem_reverse.mp hx)]
  rw [dropWhile_eq_self_of fun x hx => ht x (List.mem_reverse.mp hx)]
  exact List.reverse_reverse _

/-- A token padded with whitespace other than exactly one trailing
newline fails the untrimmed regex check; the code then strips the
padding, URL-parses the bare token, finds no hostname and returns None. -/
theorem gv_padded_none {s t : String} {pre post : List Char}
    (hd : s.data = pre ++ t.data ++ post)
    (hpre : ∀ x ∈ pre, isPySpace x = true)
    (hpost : ∀ x ∈ post, isPySpace x = true)
    (hpad : ¬ (pre = [] ∧ post = []))
    (hnl : ¬ (pre = [] ∧ post = ['\n']))
    (h : isValidIdShape t = true) : NewApp.get_video_id s = none := by
  obtain ⟨hlen, hall⟩ := shape_spec h
  obtain ⟨-, -, -, -, -, -, -, -, -, hspace, -, -⟩ := token_no_delims hall
  have htne : t.data ≠ [] := by
    intro he
    rw [he] at hlen
    simp at hlen
  have hlen_s : s.data.length = pre.length + 11 + post.length := by
    rw [hd, List.length_append, List.length_append, hlen]
  have hne : ¬ (s.data = []) := by
    intro he
    rw [he] at hlen_s
    simp only [List.length_nil] at hlen_s
    omega
  have hre : reMatchVideoId s.data = false := by
    by_cases hp0 : pre.length + post.length = 0
    · exact absurd ⟨List.length_eq_zero.mp (by omega), List.length_eq_zero.mp (by omega)⟩ hpad
    by_cases hp1 : pre.length + post.length = 1
    · by_cases hpre0 : pre = []
      · have hq1 : post.length = 1 := by
          rw [hpre0] at hp1
          simpa using hp1
        obtain ⟨c, rfl⟩ := List.length_eq_one.mp hq1
        have hcne : c ≠ '\n' := fun he => hnl ⟨hpre0, by rw [he]⟩
        have hd2 : s.data = t.data ++ [c] := by
          rw [hd, hpre0, List.nil_append]
        rw [hd2]
        unfold reMatchVideoId
        simp [List.length_append, hlen, List.getLast?_concat, hcne]
      · have hq0 : post.length = 0 := by
          have : 1 ≤ pre.length := List.length_pos.mpr hpre0
          omega
        have hpl : pre.length = 1 := by omega
        obtain ⟨c, rfl⟩ := List.length_eq_one.mp hpl
        have hc : isIdChar c = false :=
          isPySpace_not_idChar (hpre c (List.mem_cons_self c []))
        have hd2 : s.data = c :: t.data := by
          rw [hd, List.length_eq_zero.mp hq0, List.append_nil]
          rfl
        rw [hd2]
        unfold reMatchVideoId
        simp [hlen, List.take_succ_cons, List.all_cons, hc]
    · exact reMatch_false_of_len (by omega) (by omega)
  have hstrip : pyStrip s.data = t.data := by
    rw [hd]
    exact pyStrip_padded hpre hpost hspace htne
  unfold NewApp.get_video_id
  rw [if_neg hne, if_neg (bool_not_true hre), hstrip]
  simp only [hostname_none_of_token hall]
  rw [if_neg (by simp), if_neg (by simp)]

/-- A token padded with exactly one trailing newline still passes the
untrimmed regex check (the anchor matches before a final newline) and is
returned unchanged, newline included. -/
theorem gv_trailing_newline {s t : String} (hd : s.data = t.data ++ ['\n'])
    (h : isValidIdShape t = true) : NewApp.get_video_id s = some s := by
  obtain ⟨hlen, hall⟩ := shape_spec h
  have hne : ¬ (s.data = []) := by
    rw [hd]
    simp
  have htake : (t.data ++ ['\n']).take 11 = t.data := by
    rw [← hlen]
    exact List.take_left _ _
  have hre : reMatchVideoId s.data = true := by
    rw [hd]
    unfold reMatchVideoId
    simp [List.length_append, hlen, htake, List.all_eq_true.mpr hall,
      List.getLast?_concat]
  unfold NewApp.get_video_id
  rw [if_neg hne, if_pos hre]

/-- After stripping, an input accepted by the direct-ID regex consists of
identifier characters only (the optional trailing newline is stripped). -/
theorem strip_of_reMatch {l : List Char} (h : reMatchVideoId l = true) :
    ∀ x ∈ pyStrip l, isIdChar x = true := by
  unfold reMatchVideoId at h
  simp only [Bool.or_eq_true, Bool.and_eq_true, decide_eq_true_eq,
    List.all_eq_true] at h
  rcases h with ⟨hlen, hall⟩ | ⟨⟨hlen, hall⟩, hlast⟩
  · have hspace : ∀ x ∈ l, isPySpace x = false := fun x hx =>
      (isIdChar_facts (hall x hx)).2.2.2.2.2.2.2.2.2.2.2.2.2.2.1
    rw [pyStrip_eq_self hspace]
    exact hall
  · have hw : ∀ x ∈ l.take 11, isIdChar x = true := hall
    have hlen11 : (l.take 11).length = 11 := by
      rw [List.length_take, hlen]
      decide
    have hdlen : (l.drop 11).length = 1 := by
      rw [List.length_drop, hlen]
    obtain ⟨a, ha⟩ := List.length_eq_one.mp hdlen
    have hl : l = l.take 11 ++ [a] := by
      conv_lhs => rw [← List.take_append_drop 11 l]
      rw [ha]
    have hanl : a = '\n' := by
      rw [hl, List.getLast?_concat] at hlast
      exact Option.some_injective _ hlast
    subst hanl
    have hstrip : pyStrip (l.take 11 ++ ['\n']) = l.take 11 := by
      obtain ⟨y, ys, hys⟩ : ∃ y ys, l.take 11 = y :: ys := by
        cases hc : l.take 11 with
        | nil => rw [hc] at hlen11; simp at hlen11
        | cons y ys => exact ⟨y, ys, rfl⟩
      have hysp : isPySpace y = false := by
        have hyid : isIdChar y = true :=
          hw y (by rw [hys]; exact List.mem_cons_self y ys)
        exact (isIdChar_facts hyid).2.2.2.2.2.2.2.2.2.2.2.2.2.2.1
      have hwspace : ∀ x ∈ (l.take 11).reverse, isPySpace x = false := fun x hx =>
        (isIdChar_facts (hw x (List.mem_reverse.mp hx))).2.2.2.2.2.2.2.2.2.2.2.2.2.2.1
      unfold pyStrip
      rw [hys, List.cons_append, List.dropWhile_cons, if_neg (by simp [hysp])]
      rw [← List.cons_append, ← hys]
      rw [List.reverse_append, show (['\n'] : List Char).reverse ++ (l.take 11).reverse =
        '\n' :: (l.take 11).reverse from rfl]
      rw [List.dropWhile_cons, if_pos (by decide)]
      rw [dropWhile_eq_self_of hwspace, List.reverse_reverse]
    rw [hl, hstrip]
    exact hw

/-- When no field of the parsed query is named by the key, the composite
get returns the None default. -/
theorem qsFirstValue_none {key qs : List Char}
    (h : ∀ nv ∈ parse_qsl qs, nv.1 ≠ key) : qsFirstValue key qs = none := by
  unfold qsFirstValue
  rw [show ((parse_qsl qs).filterMap fun nv => if nv.1 = key then some nv.2 else none)
      = [] from List.filterMap_eq_nil_iff.mpr fun a ha => by rw [if_neg (h a ha)]]
  rfl

/-- A path beginning with the embed or v segment marker is not the watch
path. -/
theorem path_ne_watch {p : List Char}
    (h : (chars "/embed/").isPrefixOf p = true ∨ (chars "/v/").isPrefixOf p = true) :
    p ≠ chars "/watch" := by
  intro he
  rcases h with h | h
  · obtain ⟨r, hr⟩ := List.isPrefixOf_iff_prefix.mp h
    rw [← hr] at he
    have hlenp := congrArg List.length he
    rw [List.length_append] at hlenp
    rw [show (chars "/embed/").length = 7 from rfl,
      show (chars "/watch").length = 6 from rfl] at hlenp
    omega
  · obtain ⟨r, hr⟩ := List.isPrefixOf_iff_prefix.mp h
    rw [← hr] at he
    have h2 : (chars "/v/" ++ r)[1]? = (chars "/watch")[1]? := by rw [he]
    rw [show ((chars "/v/" ++ r)[1]?) = some 'v' from rfl] at h2
    exact absurd h2 (by decide)

/-- Under the guard of the embed or v branch, splitting the path on the
slash yields at least three segments, so the source index two is in
bounds. -/
theorem split_length_of_guard {p : List Char}
    (h : (chars "/embed/").isPrefixOf p = true ∨ (chars "/v/").isPrefixOf p = true) :
    2 < (pySplitAll '/' p).length := by
  rcases h with h | h
  · obtain ⟨r, hr⟩ := List.isPrefixOf_iff_prefix.mp h
    rw [← hr]
    rw [show chars "/embed/" ++ r = '/' :: (chars "embed" ++ '/' :: r) from rfl]
    rw [pySplitAll_cons_sep, pySplitAll_append (by decide)]
    simp only [List.length_cons]
    have hp := List.length_pos.mpr (pySplitAll_ne_nil '/' r)
    omega
  · obtain ⟨r, hr⟩ := List.isPrefixOf_iff_prefix.mp h
    rw [← hr]
    rw [show chars "/v/" ++ r = '/' :: (chars "v" ++ '/' :: r) from rfl]
    rw [pySplitAll_cons_sep, pySplitAll_append (by decide)]
    simp only [List.length_cons]
    have hp := List.length_pos.mpr (pySplitAll_ne_nil '/' r)
    omega

/-- For nonempty input that fails the direct-ID regex, the resolver is the
host dispatch on the stripped, parsed input. -/
theorem gv_branch {url : String} (hne : ¬ (url.data = []))
    (hre : reMatchVideoId url.data = false) :
    NewApp.get_video_id url =
      (let p := urlparse (pyStrip url.data)
       let host := hostnameOf p.netloc
       if host = some (chars "youtu.be") ∨ host = some (chars "www.youtu.be") then
         some ⟨p.path.drop 1⟩
       else if host = some (chars "youtube.com") ∨ host = some (chars "www.youtube.com") then
         if p.path = chars "/watch" then
           (qsFirstValue (chars "v") p.query).map fun l => ⟨l⟩
         else if (chars "/embed/").isPrefixOf p.path ∨ (chars "/v/").isPrefixOf p.path then
           some ⟨(pySplitAll '/' p.path).getD 2 []⟩
         else none
       else none) := by
  unfold NewApp.get_video_id
  rw [if_neg hne, if_neg (bool_not_true hre)]

/-- Zero padding of a natural number to width two, following the words of
the specification. -/
def padTwoNat (n : ℕ) : String :=
  if n < 10 then "0" ++ toString n else toString n

/-- The timestamp label as the specification describes it: truncate start
to whole seconds, divide by sixty for the minutes, keep the remainder for
the seconds, pad both to width two inside brackets; minutes unbounded. -/
def claimTimestamp (q : ℚ) : String :=
  "[" ++ padTwoNat (⌊q⌋.toNat / 60) ++ ":" ++ padTwoNat (⌊q⌋.toNat % 60) ++ "]"

/-- For a nonnegative start the label computed by the source agrees with
the label the specification describes. -/
theorem timeStr_eq_claim {q : ℚ} (h : 0 ≤ q) : timeStr q = claimTimestamp q := by
  unfold timeStr claimTimestamp pyInt
  rw [if_neg (not_lt.mpr h)]
  obtain ⟨m, hm⟩ : ∃ m : ℕ, ⌊q⌋ = (m : ℤ) :=
    ⟨⌊q⌋.toNat, (Int.toNat_of_nonneg (Int.floor_nonneg.mpr h)).symm⟩
  simp only [hm]
  have h1 : Int.fdiv ((m : ℕ) : Int) 60 = ((m / 60 : ℕ) : Int) :=
    (Int.ofNat_fdiv _ _).symm
  have h2 : Int.emod ((m : ℕ) : Int) 60 = ((m % 60 : ℕ) : Int) := rfl
  simp only [h1, h2]
  unfold pyFormat02d padTwoNat
  rw [if_neg (not_lt.mpr (Int.natCast_nonneg _)),
    if_neg (not_lt.mpr (Int.natCast_nonneg _))]
  simp only [Int.toNat_natCast]

/-! ## The claims -/

/-- Claim C1: every input that is a bare eleven character token over
[a-zA-Z0-9_-] is returned unchanged by get_video_id, and the direct-ID
check decides this before URL parsing: parsing such a token would produce
no hostname at all, so no URL branch could have produced the result. -/
theorem claim_C1 : ∀ s : String, isValidIdShape s = true →
    NewApp.get_video_id s = some s ∧
    hostnameOf (urlparse (pyStrip s.data)).netloc = none := by
  intro s h
  obtain ⟨-, hall⟩ := shape_spec h
  have hspace : ∀ x ∈ s.data, isPySpace x = false := fun x hx =>
    (isIdChar_facts (hall x hx)).2.2.2.2.2.2.2.2.2.2.2.2.2.2.1
  refine ⟨gv_direct h, ?_⟩
  rw [pyStrip_eq_self hspace]
  exact hostname_none_of_token hall

theorem claim_C1_witness :
    isValidIdShape "dQw4w9WgXcQ" = true ∧
    NewApp.get_video_id "dQw4w9WgXcQ" = some "dQw4w9WgXcQ" ∧
    hostnameOf (urlparse (pyStrip (chars "dQw4w9WgXcQ"))).netloc = none :=
  ⟨by decide, (claim_C1 "dQw4w9WgXcQ" (by decide)).1,
    (claim_C1 "dQw4w9WgXcQ" (by decide)).2⟩

/-- Claim C2 counterexample: the resolver returns the three character
string abc for a short-link URL, a value that does not satisfy the
eleven-character shape, and the transcript endpoint passes it downstream
to the fetch capability unvalidated. -/
theorem claim_C2_counterexample :
    NewApp.get_video_id "https://youtu.be/abc" = some "abc" ∧
    isValidIdShape "abc" = false ∧
    NewApp.get_transcript "https://youtu.be/abc" (fun _ => Except.ok []) =
      HttpOutcome.ok ⟨"abc", []⟩ := by
  decide

/-- Claim C2 as amended: the resolver is not a shape gate for URL-derived
identifiers (they are extracted verbatim, as the specification itself
notes in the resolver algorithm, step six); the eleven-character shape is
guaranteed only on the direct-ID path, where the returned identifier is
the input itself. -/
theorem claim_C2 : ∀ s : String, isValidIdShape s = true →
    ∃ r, NewApp.get_video_id s = some r ∧ isValidIdShape r = true :=
  fun s h => ⟨s, gv_direct h, h⟩

theorem claim_C2_witness :
    isValidIdShape "jNQXAC9IVRw" = true ∧
    ∃ r, NewApp.get_video_id "jNQXAC9IVRw" = some r ∧ isValidIdShape r = true :=
  ⟨by decide, claim_C2 "jNQXAC9IVRw" (by decide)⟩

/-- Claim C3 counterexample: a direct identifier padded with a leading
space is not trimmed before the regex check; the code strips only after
the check, then URL-parses the bare token, finds no hostname and returns
None instead of the token the claim promises. -/
theorem claim_C3_counterexample :
    NewApp.get_video_id " dQw4w9WgXcQ" = none := by
  decide

/-- Claim C3 as amended: trimming happens after the direct-ID check, not
before it, so a whitespace-padded eleven character token never resolves
to the bare token.  When the padding is exactly one trailing newline the
untrimmed regex still matches (the anchor matches before a final newline)
and the padded twelve character string is returned unchanged; for every
other nonempty whitespace padding the regex fails, the input is then
stripped and URL-parsed, matches no recognised host, and resolution fails
with None. -/
theorem claim_C3 : ∀ (s t : String) (pre post : List Char),
    s.data = pre ++ t.data ++ post →
    (∀ x ∈ pre, isPySpace x = true) →
    (∀ x ∈ post, isPySpace x = true) →
    ¬ (pre = [] ∧ post = []) →
    isValidIdShape t = true →
    ¬ (NewApp.get_video_id s = some t) ∧
    (pre = [] ∧ post = ['\n'] → NewApp.get_video_id s = some s) ∧
    (¬ (pre = [] ∧ post = ['\n']) → NewApp.get_video_id s = none) := by
  intro s t pre post hd hpre hpost hpad hshape
  by_cases hnl : pre = [] ∧ post = ['\n']
  · obtain ⟨hp1, hp2⟩ := hnl
    subst hp1
    subst hp2
    have hd2 : s.data = t.data ++ ['\n'] := by rw [hd, List.nil_append]
    have hres := gv_trailing_newline hd2 hshape
    refine ⟨?_, fun _ => hres, fun hc => absurd ⟨rfl, rfl⟩ hc⟩
    rw [hres]
    intro he
    have hst : s = t := Option.some_injective _ he
    rw [hst] at hd2
    have hlen2 := congrArg List.length hd2
    simp [List.length_append] at hlen2
  · have hres := gv_padded_none hd hpre hpost hpad hnl hshape
    exact ⟨by rw [hres]; simp, fun hc => absurd hc hnl, fun _ => hres⟩

theorem claim_C3_witness :
    (" dQw4w9WgXcQ").data = [' '] ++ ("dQw4w9WgXcQ").data ++ [] ∧
    ("dQw4w9WgXcQ\n").data = [] ++ ("dQw4w9WgXcQ").data ++ ['\n'] ∧
    isValidIdShape "dQw4w9WgXcQ" = true ∧
    NewApp.get_video_id " dQw4w9WgXcQ" = none ∧
    NewApp.get_video_id "dQw4w9WgXcQ\n" = some "dQw4w9WgXcQ\n" := by
  refine ⟨rfl, rfl, by decide, ?_, ?_⟩
  · exact (claim_C3 " dQw4w9WgXcQ" "dQw4w9WgXcQ" [' '] [] rfl (by decide) (by decide)
      (by decide) (by decide)).2.2 (by decide)
  · exact (claim_C3 "dQw4w9WgXcQ\n" "dQw4w9WgXcQ" [] ['\n'] rfl (by decide) (by decide)
      (by decide) (by decide)).2.1 ⟨rfl, rfl⟩

/-- Claim C4: the round trip holds: for every valid eleven character
identifier, the bare identifier, the short-link URL, the watch URL with
and without an extraneous t parameter, and the embed URL all resolve to
the same identifier. -/
theorem claim_C4 : ∀ v : String, isValidIdShape v = true →
    NewApp.get_video_id v = some v ∧
    NewApp.get_video_id ("https://youtu.be/" ++ v) = some v ∧
    NewApp.get_video_id ("https://www.youtube.com/watch?v=" ++ v) = some v ∧
    NewApp.get_video_id ("https://www.youtube.com/watch?v=" ++ v ++ "&t=30") = some v ∧
    NewApp.get_video_id ("https://www.youtube.com/embed/" ++ v) = some v :=
  fun _ h => ⟨gv_direct h, gv_shortlink h, gv_watch h, gv_watch_t30 h, gv_embed h⟩

theorem claim_C4_witness :
    isValidIdShape "dQw4w9WgXcQ" = true ∧
    NewApp.get_video_id "dQw4w9WgXcQ" = some "dQw4w9WgXcQ" ∧
    NewApp.get_video_id ("https://youtu.be/" ++ "dQw4w9WgXcQ") = some "dQw4w9WgXcQ" ∧
    NewApp.get_video_id ("https://www.youtube.com/watch?v=" ++ "dQw4w9WgXcQ") =
      some "dQw4w9WgXcQ" ∧
    NewApp.get_video_id ("https://www.youtube.com/watch?v=" ++ "dQw4w9WgXcQ" ++ "&t=30") =
      some "dQw4w9WgXcQ" ∧
    NewApp.get_video_id ("https://www.youtube.com/embed/" ++ "dQw4w9WgXcQ") =
      some "dQw4w9WgXcQ" := by
  refine ⟨by decide, ?_, ?_, ?_, ?_, ?_⟩
  · exact (claim_C4 "dQw4w9WgXcQ" (by decide)).1
  · exact (claim_C4 "dQw4w9WgXcQ" (by decide)).2.1
  · exact (claim_C4 "dQw4w9WgXcQ" (by decide)).2.2.1
  · exact (claim_C4 "dQw4w9WgXcQ" (by decide)).2.2.2.1
  · exact (claim_C4 "dQw4w9WgXcQ" (by decide)).2.2.2.2

/-- Claim C9: the resolver in main.py and the resolver in new_app.py are
the same function: the two sources carry textually identical definitions,
so the embeddings are definitionally equal on every input. -/
theorem claim_C9 : ∀ s : String, MainApp.get_video_id s = NewApp.get_video_id s :=
  fun _ => rfl

/-- Claim C10: the embed and v branch guard guarantees that splitting the
path on the slash yields more than two segments, so the index two the
source reads is always in bounds; and the resolver is total, returning
None on every non-success path rather than raising. -/
theorem claim_C10 :
    (∀ p : List Char,
      ((chars "/embed/").isPrefixOf p = true ∨ (chars "/v/").isPrefixOf p = true) →
      2 < (pySplitAll '/' p).length) ∧
    (∀ url : String,
      NewApp.get_video_id url = none ∨ ∃ v, NewApp.get_video_id url = some v) := by
  refine ⟨fun p h => split_length_of_guard h, fun url => ?_⟩
  cases h : NewApp.get_video_id url
  · exact Or.inl rfl
  · exact Or.inr ⟨_, rfl⟩

theorem claim_C10_witness :
    2 < (pySplitAll '/' (chars "/embed/dQw4w9WgXcQ")).length ∧
    (NewApp.get_video_id "zz" = none ∨ ∃ v, NewApp.get_video_id "zz" = some v) :=
  ⟨claim_C10.1 (chars "/embed/dQw4w9WgXcQ") (Or.inl (by decide)), claim_C10.2 "zz"⟩

/-- Claim C5: resolution yields a Python-falsy value (None or the empty
string, both treated as failure by every caller) in each case: a
short-link host with an empty path remainder, a main-host watch path with
no v parameter, and a main-host embed or v path whose following segment is
empty.  The short-link and segment cases in fact return the empty string,
not None; the callers reject both through the same truthiness test. -/
theorem claim_C5 : ∀ url : String,
    ((hostnameOf (urlparse (pyStrip url.data)).netloc = some (chars "youtu.be") ∨
      hostnameOf (urlparse (pyStrip url.data)).netloc = some (chars "www.youtu.be")) →
     (urlparse (pyStrip url.data)).path.drop 1 = [] →
     pyFalsy (NewApp.get_video_id url) = true) ∧
    ((hostnameOf (urlparse (pyStrip url.data)).netloc = some (chars "youtube.com") ∨
      hostnameOf (urlparse (pyStrip url.data)).netloc = some (chars "www.youtube.com")) →
     (urlparse (pyStrip url.data)).path = chars "/watch" →
     (∀ nv ∈ parse_qsl (urlparse (pyStrip url.data)).query, nv.1 ≠ chars "v") →
     pyFalsy (NewApp.get_video_id url) = true) ∧
    ((hostnameOf (urlparse (pyStrip url.data)).netloc = some (chars "youtube.com") ∨
      hostnameOf (urlparse (pyStrip url.data)).netloc = some (chars "www.youtube.com")) →
     ((chars "/embed/").isPrefixOf (urlparse (pyStrip url.data)).path = true ∨
      (chars "/v/").isPrefixOf (urlparse (pyStrip url.data)).path = true) →
     (pySplitAll '/' (urlparse (pyStrip url.data)).path).getD 2 [] = [] →
     pyFalsy (NewApp.get_video_id url) = true) := by
  intro url
  by_cases hnil : url.data = []
  · have hnone : NewApp.get_video_id url = none := by
      unfold NewApp.get_video_id
      rw [if_pos hnil]
    exact ⟨fun _ _ => by rw [hnone]; rfl, fun _ _ _ => by rw [hnone]; rfl,
      fun _ _ _ => by rw [hnone]; rfl⟩
  by_cases hre : reMatchVideoId url.data = true
  · have hn : hostnameOf (urlparse (pyStrip url.data)).netloc = none :=
      hostname_none_of_token (strip_of_reMatch hre)
    refine ⟨fun hH _ => ?_, fun hH _ _ => ?_, fun hH _ _ => ?_⟩ <;>
      rcases hH with hH | hH <;> rw [hn] at hH <;> exact absurd hH (by simp)
  · have hre' : reMatchVideoId url.data = false := by
      cases h : reMatchVideoId url.data
      · rfl
      · exact absurd h hre
    refine ⟨fun hH hpath => ?_, fun hH hpath hnov => ?_, fun hH hpre hseg => ?_⟩
    · rw [gv_branch hnil hre']
      simp only []
      rw [if_pos hH, hpath]
      rfl
    · rw [gv_branch hnil hre']
      simp only []
      rcases hH with hH | hH <;>
        rw [hH] <;>
        rw [if_neg (by decide), if_pos (by decide), if_pos hpath,
          qsFirstValue_none hnov] <;>
        rfl
    · rw [gv_branch hnil hre']
      simp only []
      rcases hH with hH | hH <;>
        rw [hH] <;>
        rw [if_neg (by decide), if_pos (by decide),
          if_neg (path_ne_watch hpre), if_pos hpre, hseg] <;>
        rfl

theorem claim_C5_witness :
    pyFalsy (NewApp.get_video_id "https://youtu.be/") = true ∧
    pyFalsy (NewApp.get_video_id "https://www.youtube.com/watch") = true ∧
    pyFalsy (NewApp.get_video_id "https://www.youtube.com/embed/") = true :=
  ⟨(claim_C5 "https://youtu.be/").1 (by decide) (by decide),
   (claim_C5 "https://www.youtube.com/watch").2.1 (by decide) (by decide) (by decide),
   (claim_C5 "https://www.youtube.com/embed/").2.2 (by decide) (by decide) (by decide)⟩

/-- Claim C6: the timestamp label is computed by truncating start to whole
seconds, taking minutes as the quotient by sixty and seconds as the
remainder, each zero-padded to width two inside brackets; minutes are not
wrapped at sixty.  A cue with start 65.7 yields the label [01:05] in both
the structured formatter of new_app.py and the text formatter of main.py,
and a start of 7530 seconds yields [125:30]. -/
theorem claim_C6 :
    (∀ e : CaptionCue, 0 ≤ e.start →
      NewApp.format_transcript [e] =
        [⟨claimTimestamp e.start, e.text, e.start, e.duration.getD 0⟩]) ∧
    NewApp.format_transcript [⟨"hi", 65.7, some 2⟩] = [⟨"[01:05]", "hi", 65.7, 2⟩] ∧
    MainApp.format_transcript [⟨"hi", 65.7, some 2⟩] = "[01:05] hi" ∧
    timeStr 7530 = "[125:30]" := by
  have h65 : pyInt (65.7 : ℚ) = 65 := by
    unfold pyInt
    rw [if_neg (by norm_num)]
    norm_num [Int.floor_eq_iff]
  have htime : timeStr (65.7 : ℚ) = "[01:05]" := by
    unfold timeStr
    rw [h65]
    decide
  have h7530 : pyInt (7530 : ℚ) = 7530 := by
    unfold pyInt
    rw [if_neg (by norm_num)]
    norm_num
  refine ⟨?_, ?_, ?_, ?_⟩
  · intro e h
    unfold NewApp.format_transcript
    rw [List.map_cons, List.map_nil, timeStr_eq_claim h]
  · unfold NewApp.format_transcript
    rw [List.map_cons, List.map_nil, htime]
    rfl
  · unfold MainApp.format_transcript
    rw [List.map_cons, List.map_nil, htime]
    rfl
  · unfold timeStr
    rw [h7530]
    decide

theorem claim_C6_witness :
    (0 : ℚ) ≤ (65.7 : ℚ) ∧
    NewApp.format_transcript [⟨"hi", 65.7, some 2⟩] =
      [⟨claimTimestamp 65.7, "hi", 65.7, 2⟩] :=
  ⟨by norm_num, claim_C6.1 ⟨"hi", 65.7, some 2⟩ (by norm_num)⟩

/-- Claim C7: the structured formatter maps the input cue sequence one to
one: output length equals input length, the cue at every index keeps its
text, start, and duration (the duration defaulting to zero when absent),
and the empty input yields the empty output. -/
theorem claim_C7 : ∀ cues : List CaptionCue,
    (NewApp.format_transcript cues).length = cues.length ∧
    (∀ i : ℕ,
      ((NewApp.format_transcript cues)[i]?).map TranscriptEntry.text =
        (cues[i]?).map CaptionCue.text ∧
      ((NewApp.format_transcript cues)[i]?).map TranscriptEntry.start =
        (cues[i]?).map CaptionCue.start ∧
      ((NewApp.format_transcript cues)[i]?).map TranscriptEntry.duration =
        (cues[i]?).map (fun e => e.duration.getD 0)) ∧
    NewApp.format_transcript [] = [] := by
  intro cues
  refine ⟨by simp [NewApp.format_transcript], fun i => ⟨?_, ?_, ?_⟩, rfl⟩ <;>
    (unfold NewApp.format_transcript
     rw [List.getElem?_map]
     cases cues[i]? <;> simp)

/-- Claim C8: the transcript endpoint maps outcomes to statuses: a falsy
resolution gives 400; a provider exception whose text contains the
not-found marker gives 404; any other provider exception gives 500 with
the provider text embedded in the detail; a provider success gives the 200
body built from the resolved identifier and the formatted cues. -/
theorem claim_C8 : ∀ (url : String) (fetch : String → Except String (List CaptionCue)),
    (pyFalsy (NewApp.get_video_id url) = true →
      NewApp.get_transcript url fetch =
        HttpOutcome.httpError 400 "Invalid YouTube URL or video ID") ∧
    (∀ vid, NewApp.get_video_id url = some vid → ¬ (vid = "") →
      (∀ cues, fetch vid = Except.ok cues →
        NewApp.get_transcript url fetch =
          HttpOutcome.ok ⟨vid, NewApp.format_transcript cues⟩ ∧
        statusOf (NewApp.get_transcript url fetch) = 200) ∧
      (∀ msg, fetch vid = Except.error msg →
        (containsSub (chars "Unable to find a transcript") (chars msg) = true →
          NewApp.get_transcript url fetch =
            HttpOutcome.httpError 404 "No transcript available for this video") ∧
        (containsSub (chars "Unable to find a transcript") (chars msg) = false →
          NewApp.get_transcript url fetch =
            HttpOutcome.httpError 500 ("Error fetching transcript: " ++ msg)))) := by
  intro url fetch
  constructor
  · intro hf
    unfold NewApp.get_transcript
    cases hgv : NewApp.get_video_id url with
    | none => rfl
    | some vid =>
      rw [hgv] at hf
      have : vid = "" := by simpa [pyFalsy] using hf
      simp only [this]
      rw [if_pos trivial]
  · intro vid hgv hne
    constructor
    · intro cues hfet
      have hmain : NewApp.get_transcript url fetch =
          HttpOutcome.ok ⟨vid, NewApp.format_transcript cues⟩ := by
        unfold NewApp.get_transcript
        simp only [hgv]
        rw [if_neg hne]
        simp only [hfet]
      exact ⟨hmain, by rw [hmain]; rfl⟩
    · intro msg hfet
      constructor
      · intro hsub
        unfold NewApp.get_transcript
        simp only [hgv]
        rw [if_neg hne]
        simp only [hfet]
        rw [if_pos hsub]
      · intro hsub
        unfold NewApp.get_transcript
        simp only [hgv]
        rw [if_neg hne]
        simp only [hfet]
        rw [if_neg (bool_not_true hsub)]

theorem claim_C8_witness :
    NewApp.get_transcript "zz" (fun _ => Except.ok []) =
      HttpOutcome.httpError 400 "Invalid YouTube URL or video ID" ∧
    NewApp.get_transcript "dQw4w9WgXcQ"
        (fun _ => Except.error "Unable to find a transcript for this video!") =
      HttpOutcome.httpError 404 "No transcript available for this video" ∧
    NewApp.get_transcript "dQw4w9WgXcQ" (fun _ => Except.error "boom") =
      HttpOutcome.httpError 500 ("Error fetching transcript: " ++ "boom") ∧
    NewApp.get_transcript "dQw4w9WgXcQ" (fun _ => Except.ok []) =
      HttpOutcome.ok ⟨"dQw4w9WgXcQ", NewApp.format_transcript []⟩ := by
  refine ⟨?_, ?_, ?_, ?_⟩
  · exact (claim_C8 "zz" (fun _ => Except.ok [])).1 (by decide)
  · exact ((claim_C8 "dQw4w9WgXcQ"
      (fun _ => Except.error "Unable to find a transcript for this video!")).2
      "dQw4w9WgXcQ" (by decide) (by decide)).2
      "Unable to find a transcript for this video!" rfl |>.1 (by decide)
  · exact ((claim_C8 "dQw4w9WgXcQ" (fun _ => Except.error "boom")).2
      "dQw4w9WgXcQ" (by decide) (by decide)).2 "boom" rfl |>.2 (by decide)
  · exact (((claim_C8 "dQw4w9WgXcQ" (fun _ => Except.ok [])).2
      "dQw4w9WgXcQ" (by decide) (by decide)).1 [] rfl).1
